import Mathlib

/-!
Verification of the margarita templating pipeline: a shallow embedding of
the tokenizer and recursive-descent parser from `src/margarita/parser.py`,
together with models of the renderer and composer components described by
the specification (their source files are not part of the checked tree, so
they are modelled from the spec, as marked on each definition).

Strings are processed as `List Char`; each regular expression of the
source's pattern table is embedded as an explicit matcher function whose
backtracking behaviour mirrors the Python `re` semantics of that pattern.
The regex class `\w` is modelled as ASCII alphanumerics plus underscore,
and `\s` as the ASCII whitespace characters.
-/

namespace Margarita

/-- ASCII whitespace, the characters matched by the regex class `\s`. -/
def isWS (c : Char) : Bool :=
  c = ' ' || c = '\t' || c = '\n' || c = '\r' || c = '\x0b' || c = '\x0c'

/-- Characters matched by the regex class `\w` (ASCII reading). -/
def isWordChar (c : Char) : Bool :=
  c.isAlphanum || c = '_'

/-- Characters matched by the class `[\w\.]` of the variable pattern. -/
def isWordDotChar (c : Char) : Bool :=
  isWordChar c || c = '.'

/-- Python `str.strip`: remove leading and trailing whitespace. -/
def stripStr (s : String) : String :=
  String.mk (((s.data.dropWhile isWS).reverse.dropWhile isWS).reverse)

/-- The optional trailing-newline consumer `(?:\n)?` ending most patterns. -/
def consumeNL : List Char → List Char
  | '\n' :: rest => rest
  | cs => cs

/-- Consume `\s*`: drop the maximal run of whitespace. -/
def dropWS (cs : List Char) : List Char := cs.dropWhile isWS

/-- Whether the input starts with a whitespace character (used for `\s+`). -/
def headIsWS : List Char → Bool
  | c :: _ => isWS c
  | [] => false

/-- Match a literal character sequence, returning the remaining input. -/
def dropLit : List Char → List Char → Option (List Char)
  | [], cs => some cs
  | _ :: _, [] => none
  | k :: ks, c :: cs => if c = k then dropLit ks cs else none

/-- One candidate for the lazy group `(.+?)(?:\n|$)` after `\s*` consumed
`k` whitespace characters: the group is the run of non-newline characters
starting there (lazy matching stops exactly at the first newline or at the
end of input), and must be nonempty; a newline directly after it is
consumed. -/
def tryValueAt (u : List Char) (k : Nat) : Option (String × List Char) :=
  let tail := u.drop k
  let run := tail.takeWhile (fun c => c ≠ '\n')
  if run.isEmpty then none
  else some (String.mk run, consumeNL (tail.drop run.length))

/-- Backtracking for the greedy `\s*` before the lazy value group: try the
longest whitespace consumption first, shrinking until the value group can
match. -/
def bestValue (u : List Char) : Nat → Option (String × List Char)
  | 0 => tryValueAt u 0
  | k + 1 =>
    match tryValueAt u (k + 1) with
    | some r => some r
    | none => bestValue u k

/-- The METADATA pattern `@(\w+):\s*(.+?)(?:\n|$)` anchored at the cursor.
Returns the two captured groups (key and raw value) and the rest. -/
def matchMetadata (cs : List Char) : Option (List String × List Char) :=
  match cs with
  | '@' :: rest =>
    let key := rest.takeWhile isWordChar
    if key.isEmpty then none
    else
      match rest.drop key.length with
      | ':' :: u =>
        match bestValue u (u.takeWhile isWS).length with
        | some (v, rem) => some ([String.mk key, v], rem)
        | none => none
      | _ => none
  | _ => none

/-- Scan for the lazy comment close `.*?#\}`: find the first `#}` with no
intervening newline (`.` does not match a newline). -/
def commentClose : List Char → Option (List Char)
  | '#' :: '}' :: rest => some rest
  | c :: rest => if c = '\n' then none else commentClose rest
  | [] => none

/-- The COMMENT pattern `\{#.*?#\}(?:\n)?` anchored at the cursor. -/
def matchComment (cs : List Char) : Option (List String × List Char) :=
  match cs with
  | '{' :: '#' :: rest =>
    match commentClose rest with
    | some r => some ([], consumeNL r)
    | none => none
  | _ => none

/-- The IF_START pattern `\{%\s*if\s+(\w+)\s*%\}(?:\n)?`. -/
def matchIfStart (cs : List Char) : Option (List String × List Char) :=
  match cs with
  | '{' :: '%' :: rest =>
    match dropLit ['i', 'f'] (dropWS rest) with
    | some r2 =>
      if headIsWS r2 then
        let r3 := dropWS r2
        let cond := r3.takeWhile isWordChar
        if cond.isEmpty then none
        else
          match dropWS (r3.drop cond.length) with
          | '%' :: '}' :: r4 => some ([String.mk cond], consumeNL r4)
          | _ => none
      else none
    | none => none
  | _ => none

/-- A tag of the shape `\{%\s*KEYWORD\s*%\}(?:\n)?` with no capture groups
(used for else, endif and endfor). -/
def matchKeywordTag (kw : List Char) (cs : List Char) :
    Option (List String × List Char) :=
  match cs with
  | '{' :: '%' :: rest =>
    match dropLit kw (dropWS rest) with
    | some r2 =>
      match dropWS r2 with
      | '%' :: '}' :: r3 => some ([], consumeNL r3)
      | _ => none
    | none => none
  | _ => none

/-- The ELSE pattern `\{%\s*else\s*%\}(?:\n)?`. -/
def matchElse (cs : List Char) : Option (List String × List Char) :=
  matchKeywordTag ['e', 'l', 's', 'e'] cs

/-- The ENDIF pattern `\{%\s*endif\s*%\}(?:\n)?`. -/
def matchEndif (cs : List Char) : Option (List String × List Char) :=
  matchKeywordTag ['e', 'n', 'd', 'i', 'f'] cs

/-- The FOR_START pattern `\{%\s*for\s+(\w+)\s+in\s+(\w+)\s*%\}(?:\n)?`. -/
def matchForStart (cs : List Char) : Option (List String × List Char) :=
  match cs with
  | '{' :: '%' :: rest =>
    match dropLit ['f', 'o', 'r'] (dropWS rest) with
    | some r2 =>
      if headIsWS r2 then
        let r3 := dropWS r2
        let iter := r3.takeWhile isWordChar
        if iter.isEmpty then none
        else
          let r4 := r3.drop iter.length
          if headIsWS r4 then
            match dropLit ['i', 'n'] (dropWS r4) with
            | some r5 =>
              if headIsWS r5 then
                let r6 := dropWS r5
                let itb := r6.takeWhile isWordChar
                if itb.isEmpty then none
                else
                  match dropWS (r6.drop itb.length) with
                  | '%' :: '}' :: r7 =>
                    some ([String.mk iter, String.mk itb], consumeNL r7)
                  | _ => none
              else none
            | none => none
          else none
      else none
    | none => none
  | _ => none

/-- The ENDFOR pattern `\{%\s*endfor\s*%\}(?:\n)?`. -/
def matchEndfor (cs : List Char) : Option (List String × List Char) :=
  matchKeywordTag ['e', 'n', 'd', 'f', 'o', 'r'] cs

/-- The INCLUDE pattern `\{%\s*include\s+"([^"]+)"\s*%\}(?:\n)?`. -/
def matchInclude (cs : List Char) : Option (List String × List Char) :=
  match cs with
  | '{' :: '%' :: rest =>
    match dropLit ['i', 'n', 'c', 'l', 'u', 'd', 'e'] (dropWS rest) with
    | some r2 =>
      if headIsWS r2 then
        match dropWS r2 with
        | '"' :: r3 =>
          let name := r3.takeWhile (fun c => c ≠ '"')
          if name.isEmpty then none
          else
            match r3.drop name.length with
            | '"' :: r4 =>
              match dropWS r4 with
              | '%' :: '}' :: r5 => some ([String.mk name], consumeNL r5)
              | _ => none
            | _ => none
        | _ => none
      else none
    | none => none
  | _ => none

/-- The VARIABLE pattern `\{\{([\w\.]+)\}\}` (no trailing newline is
consumed by this pattern). -/
def matchVariable (cs : List Char) : Option (List String × List Char) :=
  match cs with
  | '{' :: '{' :: rest =>
    let name := rest.takeWhile isWordDotChar
    if name.isEmpty then none
    else
      match rest.drop name.length with
      | '}' :: '}' :: r => some ([String.mk name], r)
      | _ => none
  | _ => none

/-- Token types of the tokenizer, in the source's naming. -/
inductive TokType where
  | METADATA
  | COMMENT
  | IF_START
  | ELSE
  | ENDIF
  | FOR_START
  | ENDFOR
  | INCLUDE
  | VARIABLE
  | TEXT
deriving DecidableEq, Repr

/-- A token: its type together with the captured groups (for TEXT, the
single collected text run). -/
abbrev Token := TokType × List String

/-- The metadata map, with Python dict update semantics. -/
abbrev Meta := List (String × String)

/-- Association lookup (first matching key wins, as in a dict). -/
def assocFind {α : Type} : List (String × α) → String → Option α
  | [], _ => none
  | (k', v) :: rest, k => if k' = k then some v else assocFind rest k

/-- Association update in the style of a Python dict assignment: replace
the value of an existing key in place, else append the new pair. -/
def assocInsert {α : Type} : List (String × α) → String → α → List (String × α)
  | [], k, v => [(k, v)]
  | (k', v') :: rest, k, v =>
    if k' = k then (k, v) :: rest else (k', v') :: assocInsert rest k v

/-- The fixed, ordered pattern table of `MargaritaParser.__init__`. -/
def patterns : List (TokType × (List Char → Option (List String × List Char))) :=
  [(.METADATA, matchMetadata),
   (.COMMENT, matchComment),
   (.IF_START, matchIfStart),
   (.ELSE, matchElse),
   (.ENDIF, matchEndif),
   (.FOR_START, matchForStart),
   (.ENDFOR, matchEndfor),
   (.INCLUDE, matchInclude),
   (.VARIABLE, matchVariable)]

/-- First pattern of a table that matches at the cursor, with its result. -/
def firstPatternIn (l : List (TokType × (List Char → Option (List String × List Char))))
    (cs : List Char) : Option (TokType × List String × List Char) :=
  l.findSome? fun p => (p.2 cs).map fun r => (p.1, r.1, r.2)

/-- The tokenizer's per-position pattern dispatch: try the fixed table in
priority order, anchored at the cursor; the first match wins. -/
def firstPattern (cs : List Char) : Option (TokType × List String × List Char) :=
  firstPatternIn patterns cs

/-- Whether any pattern of the table matches at this position. -/
def anyPatternMatches (cs : List Char) : Bool :=
  patterns.any fun p => (p.2 cs).isSome

/-- Offset of the nearest position at or after the cursor where some
pattern matches (the input length if none does) — the `finditer` text
collection step of `_tokenize`. -/
def findNextMatch : List Char → Nat
  | [] => 0
  | c :: rest => if anyPatternMatches (c :: rest) then 0 else findNextMatch rest + 1

/-- The tokenizer loop of `MargaritaParser._tokenize`, with fuel bounding
the number of loop iterations (each iteration consumes at least one
character, so fuel equal to the input length is always sufficient).
METADATA matches update the metadata map with the stripped value and emit
no token; COMMENT matches emit nothing; other matches emit a typed token;
when no pattern matches at the cursor, text is collected up to the nearest
position where any pattern matches. -/
def tokenizeAux : Nat → List Char → Meta → Meta × List Token
  | _, [], meta => (meta, [])
  | 0, _, meta => (meta, [])
  | fuel + 1, cs, meta =>
    match firstPattern cs with
    | some (t, gs, rest) =>
      match t with
      | .METADATA =>
        tokenizeAux fuel rest (assocInsert meta (gs.getD 0 "") (stripStr (gs.getD 1 "")))
      | .COMMENT => tokenizeAux fuel rest meta
      | _ =>
        let r := tokenizeAux fuel rest meta
        (r.1, (t, gs) :: r.2)
    | none =>
      let d := findNextMatch cs
      let text := cs.take d
      let r := tokenizeAux fuel (cs.drop d) meta
      if text.isEmpty then r else (r.1, (.TEXT, [String.mk text]) :: r.2)

/-- Tokenize a template: metadata map and token list. -/
def tokenize (cs : List Char) : Meta × List Token :=
  tokenizeAux cs.length cs []

/-- AST nodes, mirroring the dataclasses of the source. -/
inductive Node where
  | TextNode (content : String)
  | VariableNode (name : String)
  | IfNode (condition : String) (true_block : List Node)
      (false_block : Option (List Node))
  | ForNode (iterator : String) (iterable : String) (block : List Node)
  | IncludeNode (template_name : String)
  | MetadataNode (key : String) (value : String)
deriving Repr

/-- Prepend a text run onto a node list, coalescing with an adjacent
TextNode (the parser-side coalescing of consecutive TEXT tokens). -/
def consText (s : String) : List Node → List Node
  | .TextNode t :: ns => .TextNode (s ++ t) :: ns
  | ns => .TextNode s :: ns

/-- Whether the next unconsumed token has the given type (the source's
`self.pos < len(self.tokens) and self.tokens[self.pos][0] == ...` test). -/
def headTokIs (t : TokType) : List Token → Bool
  | (t', _) :: _ => t' = t
  | [] => false

/-- Drop a leading token of the given type, if present (the conditional
`self.pos += 1` steps past ENDIF and ENDFOR). -/
def dropLeading (t : TokType) (ts : List Token) : List Token :=
  if headTokIs t ts then ts.tail else ts

/-- The recursive-descent parser `MargaritaParser._parse_nodes`, with fuel
bounding the recursion (fuel equal to the token count is sufficient, since
every recursive call receives strictly fewer tokens than the fuel passed
to it). Returns the parsed nodes and the unconsumed tokens (the suffix
starting at a stop token, or empty). Unknown or unmatched token types fall
to the final case and are skipped. -/
def parseNodesAux : Nat → List Token → List TokType → List Node × List Token
  | _, [], _ => ([], [])
  | 0, ts, _ => ([], ts)
  | fuel + 1, (t, gs) :: rest, stop =>
    if t ∈ stop then ([], (t, gs) :: rest)
    else
      match t with
      | .TEXT =>
        let r := parseNodesAux fuel rest stop
        (consText (gs.getD 0 "") r.1, r.2)
      | .VARIABLE =>
        let r := parseNodesAux fuel rest stop
        (.VariableNode (gs.getD 0 "") :: r.1, r.2)
      | .IF_START =>
        let tb := parseNodesAux fuel rest [.ELSE, .ENDIF]
        if headTokIs .ELSE tb.2 then
          let fb := parseNodesAux fuel tb.2.tail [.ENDIF]
          let r := parseNodesAux fuel (dropLeading .ENDIF fb.2) stop
          (.IfNode (gs.getD 0 "") tb.1 (some fb.1) :: r.1, r.2)
        else
          let r := parseNodesAux fuel (dropLeading .ENDIF tb.2) stop
          (.IfNode (gs.getD 0 "") tb.1 none :: r.1, r.2)
      | .FOR_START =>
        let blk := parseNodesAux fuel rest [.ENDFOR]
        let r := parseNodesAux fuel (dropLeading .ENDFOR blk.2) stop
        (.ForNode (gs.getD 0 "") (gs.getD 1 "") blk.1 :: r.1, r.2)
      | .INCLUDE =>
        let r := parseNodesAux fuel rest stop
        (.IncludeNode (gs.getD 0 "") :: r.1, r.2)
      | _ => parseNodesAux fuel rest stop

/-- Parse a token list into a top-level node sequence. -/
def parseTokens (ts : List Token) : List Node :=
  (parseNodesAux ts.length ts []).1

/-- `MargaritaParser.parse`: tokenize, then build the AST; returns the
metadata map and the body. -/
def parse (template : String) : Meta × List Node :=
  let r := tokenize template.data
  (r.1, parseTokens r.2)

mutual

/-- Whether a node is (or contains, inside a block) a MetadataNode; used to
state that metadata never appears in a parsed body. -/
def nodeHasMeta : Node → Bool
  | .MetadataNode _ _ => true
  | .IfNode _ tb fb =>
    nodesHaveMeta tb ||
      (match fb with
       | some l => nodesHaveMeta l
       | none => false)
  | .ForNode _ _ blk => nodesHaveMeta blk
  | _ => false

def nodesHaveMeta : List Node → Bool
  | [] => false
  | n :: ns => nodeHasMeta n || nodesHaveMeta ns

end

/-- Modelled from the spec: the runtime context value tree of section 3 —
scalars (string, number, boolean, null), ordered sequences and string-keyed
mappings. The renderer source file is not under the checked tree. -/
inductive Value where
  | vStr (s : String)
  | vInt (n : Int)
  | vBool (b : Bool)
  | vNull
  | vList (items : List Value)
  | vDict (entries : List (String × Value))
deriving Repr

/-- A context: a mapping from names to values (head binding wins, so a
prepended binding shadows an outer one of the same name). -/
abbrev Ctx := List (String × Value)

/-- Look up a bare key in a context or mapping. -/
def lookupCtx : Ctx → String → Option Value
  | [], _ => none
  | (k', v) :: rest, k => if k' = k then some v else lookupCtx rest k

/-- Split a dotted name at the dots, Python `str.split` style
(so consecutive dots yield empty segments). -/
def splitDotsAux : List Char → List Char → List String
  | acc, [] => [String.mk acc.reverse]
  | acc, c :: rest =>
    if c = '.' then String.mk acc.reverse :: splitDotsAux [] rest
    else splitDotsAux (c :: acc) rest

/-- Segments of a dotted variable name. -/
def splitDots (s : String) : List String :=
  splitDotsAux [] s.data

/-- Modelled from the spec: walk the remaining path segments through nested
mappings; a missing key, or a non-mapping value while segments remain,
resolves to nothing. -/
def walkPath : Value → List String → Option Value
  | v, [] => some v
  | .vDict d, s :: rest =>
    match lookupCtx d s with
    | some v => walkPath v rest
    | none => none
  | _, _ :: _ => none

/-- Modelled from the spec: resolve a dotted variable path against the
context by repeated key lookup. -/
def resolvePath (ctx : Ctx) (name : String) : Option Value :=
  match splitDots name with
  | [] => none
  | s :: rest =>
    match lookupCtx ctx s with
    | some v => walkPath v rest
    | none => none

mutual

/-- Modelled from the spec: deterministic display form of a value — strings
verbatim, numbers and booleans and null in Python's `str` form, sequences
and mappings in a bracketed comma-separated form. -/
def display : Value → String
  | .vStr s => s
  | .vInt n => toString n
  | .vBool b => if b then "True" else "False"
  | .vNull => "None"
  | .vList xs => "[" ++ displayItems xs ++ "]"
  | .vDict es => "\x7b" ++ displayEntries es ++ "\x7d"

def displayItems : List Value → String
  | [] => ""
  | [x] => display x
  | x :: y :: xs => display x ++ ", " ++ displayItems (y :: xs)

def displayEntries : List (String × Value) → String
  | [] => ""
  | [(k, v)] => k ++ ": " ++ display v
  | (k, v) :: e :: es => k ++ ": " ++ display v ++ ", " ++ displayEntries (e :: es)

end

/-- Modelled from the spec: the truthiness rule of section 4.3 — false,
null, numeric zero and empty string/sequence/mapping are falsy, everything
else is truthy. -/
def truthy : Value → Bool
  | .vBool b => b
  | .vNull => false
  | .vInt n => n != 0
  | .vStr s => s != ""
  | .vList xs => !xs.isEmpty
  | .vDict es => !es.isEmpty

/-- A template store: what the renderer and composer read template sources
from, by name. -/
abbrev FS := String → Option String

/-- Errors of the loading and rendering layer: the not-found condition for
a missing template file, and exhaustion of the include-recursion allowance
(the source design has no cycle guard; the fuel models the external
resource limit of section 5). -/
inductive RError where
  | notFound (name : String)
  | depthExceeded
deriving DecidableEq, Repr

mutual

/-- Modelled from the spec: the renderer of section 4.3 (its source file is
not under the checked tree). Tree-walk with string accumulation; a variable
resolves through `resolvePath` and renders as the empty string when
unresolved; an if evaluates its bare condition key by truthiness; a for
renders zero iterations unless its iterable resolves to a sequence, and
otherwise renders its block once per element with the iterator bound in a
scoped context view; an include reads and parses the referenced file fresh
and renders its body with the same context, consuming one unit of
include-depth fuel. -/
def renderNode (fuel : Nat) (fs : FS) (ctx : Ctx) : Node → Except RError String
  | .TextNode s => .ok s
  | .VariableNode n =>
    match resolvePath ctx n with
    | some v => .ok (display v)
    | none => .ok ""
  | .IfNode c tb fb =>
    if (match lookupCtx ctx c with
        | some v => truthy v
        | none => false) then
      renderNodes fuel fs ctx tb
    else
      match fb with
      | some l => renderNodes fuel fs ctx l
      | none => .ok ""
  | .ForNode it itb blk =>
    match lookupCtx ctx itb with
    | some (.vList xs) => renderFor fuel fs ctx it blk xs
    | _ => .ok ""
  | .IncludeNode name =>
    match fs name with
    | none => .error (.notFound name)
    | some content =>
      match fuel with
      | 0 => .error .depthExceeded
      | f + 1 => renderNodes f fs ctx (parse content).2
  | .MetadataNode _ _ => .ok ""
termination_by n => (fuel, sizeOf n, 0)

def renderNodes (fuel : Nat) (fs : FS) (ctx : Ctx) : List Node → Except RError String
  | [] => .ok ""
  | n :: ns =>
    match renderNode fuel fs ctx n with
    | .error e => .error e
    | .ok s =>
      match renderNodes fuel fs ctx ns with
      | .error e => .error e
      | .ok r => .ok (s ++ r)
termination_by l => (fuel, sizeOf l, 0)

def renderFor (fuel : Nat) (fs : FS) (ctx : Ctx) (it : String) (blk : List Node) :
    List Value → Except RError String
  | [] => .ok ""
  | x :: xs =>
    match renderNodes fuel fs ((it, x) :: ctx) blk with
    | .error e => .error e
    | .ok s =>
      match renderFor fuel fs ctx it blk xs with
      | .error e => .error e
      | .ok r => .ok (s ++ r)
termination_by xs => (fuel, sizeOf blk, xs.length + 1)

end

/-- Modelled from the spec: the composer of section 4.4 (its source file is
not under the checked tree). It owns a mutable name-to-template cache. -/
structure Composer where
  cache : List (String × (Meta × List Node))
deriving Repr

/-- A freshly constructed composer: its cache starts empty and is
independent of every other composer instance. -/
def Composer.new : Composer := ⟨[]⟩

/-- Modelled from the spec: `loadTemplate` — a cached name is returned as
the stored pair without touching disk; otherwise the file is read, parsed
and cached. The third result component lists the disk reads performed by
the call. A missing file fails with the not-found condition. -/
def loadTemplate (fs : FS) (c : Composer) (name : String) :
    Except RError ((Meta × List Node) × Composer × List String) :=
  match assocFind c.cache name with
  | some t => .ok (t, c, [])
  | none =>
    match fs name with
    | none => .error (.notFound name)
    | some content =>
      let t := parse content
      .ok (t, ⟨assocInsert c.cache name t⟩, [name])

/-- Modelled from the spec: `Composer.render` — load (and cache) the
template, then render its body, metadata excluded, against the store. -/
def renderTemplate (fuel : Nat) (fs : FS) (c : Composer) (name : String) (ctx : Ctx) :
    Except RError (String × Composer) :=
  match loadTemplate fs c name with
  | .error e => .error e
  | .ok (t, c2, _) =>
    match renderNodes fuel fs ctx t.2 with
    | .error e => .error e
    | .ok s => .ok (s, c2)

/-- Join rendered snippets with a separator, Python `str.join` style. -/
def joinSep (sep : String) : List String → String
  | [] => ""
  | [s] => s
  | s :: t :: rest => s ++ sep ++ joinSep sep (t :: rest)

/-- Render each snippet in order, threading the cache; the first failure
aborts and discards everything rendered so far. -/
def composeList (fuel : Nat) (fs : FS) : Composer → List String → Ctx →
    Except RError (List String × Composer)
  | c, [], _ => .ok ([], c)
  | c, n :: ns, ctx =>
    match renderTemplate fuel fs c n ctx with
    | .error e => .error e
    | .ok (s, c2) =>
      match composeList fuel fs c2 ns ctx with
      | .error e => .error e
      | .ok (rs, c3) => .ok (s :: rs, c3)

/-- The default separator of `composePrompt`. -/
def defaultSeparator : String := "\n\n"

/-- Modelled from the spec: `composePrompt` — render each named snippet in
order via `renderTemplate` and join the results with the separator; the
empty snippet list yields the empty string; a missing snippet aborts the
whole composition with no partial result. -/
def composePrompt (fuel : Nat) (fs : FS) (c : Composer) (snippets : List String)
    (ctx : Ctx) (sep : String) : Except RError (String × Composer) :=
  match composeList fuel fs c snippets ctx with
  | .error e => .error e
  | .ok (rs, c2) => .ok (joinSep sep rs, c2)

/-! Helper lemmas about the embedded definitions. -/

theorem assocFind_insert_self {α : Type} (l : List (String × α)) (k : String) (v : α) :
    assocFind (assocInsert l k v) k = some v := by
  induction l with
  | nil => simp [assocInsert, assocFind]
  | cons p rest ih =>
    obtain ⟨k', v'⟩ := p
    by_cases h : k' = k
    · simp [assocInsert, assocFind, h]
    · simp [assocInsert, assocFind, h, ih]

theorem assocFind_insert_ne {α : Type} (l : List (String × α)) (k k2 : String) (v : α)
    (h : k ≠ k2) : assocFind (assocInsert l k v) k2 = assocFind l k2 := by
  induction l with
  | nil => simp [assocInsert, assocFind, h]
  | cons p rest ih =>
    obtain ⟨k', v'⟩ := p
    by_cases hk : k' = k
    · subst hk
      simp [assocInsert, assocFind, h]
    · by_cases hk2 : k' = k2
      · subst hk2
        simp [assocInsert, assocFind, hk]
      · simp [assocInsert, assocFind, hk, hk2, ih]

theorem firstPatternIn_split
    (pre : List (TokType × (List Char → Option (List String × List Char))))
    (p : TokType × (List Char → Option (List String × List Char)))
    (post : List (TokType × (List Char → Option (List String × List Char))))
    (cs : List Char) (r : List String × List Char)
    (hpre : ∀ q ∈ pre, q.2 cs = none) (hp : p.2 cs = some r) :
    firstPatternIn (pre ++ p :: post) cs = some (p.1, r.1, r.2) := by
  induction pre with
  | nil => simp [firstPatternIn, List.findSome?, hp]
  | cons q pre' ih =>
    have hq : q.2 cs = none := hpre q (by simp)
    have hpre' : ∀ q2 ∈ pre', q2.2 cs = none := fun q2 hq2 => hpre q2 (by simp [hq2])
    simpa [firstPatternIn, List.findSome?, hq] using ih hpre'

theorem nodesHaveMeta_nil : nodesHaveMeta [] = false := by
  simp [nodesHaveMeta]

theorem nodesHaveMeta_cons (n : Node) (ns : List Node) :
    nodesHaveMeta (n :: ns) = (nodeHasMeta n || nodesHaveMeta ns) := by
  simp [nodesHaveMeta]

theorem nodeHasMeta_TextNode (s : String) : nodeHasMeta (.TextNode s) = false := by
  simp [nodeHasMeta]

theorem nodesHaveMeta_consText (s : String) (ns : List Node) :
    nodesHaveMeta (consText s ns) = nodesHaveMeta ns := by
  cases ns with
  | nil =>
    rw [consText]
    all_goals simp [nodesHaveMeta_cons, nodesHaveMeta_nil, nodeHasMeta_TextNode]
  | cons n rest =>
    cases n <;>
      · rw [consText]
        all_goals
          first
          | rw [nodesHaveMeta_cons, nodesHaveMeta_cons, nodeHasMeta_TextNode,
              nodeHasMeta_TextNode]
          | rw [nodesHaveMeta_cons, nodesHaveMeta_cons, nodeHasMeta_TextNode,
              Bool.false_or]
          | simp

theorem parseNodesAux_no_meta (fuel : Nat) (ts : List Token) (stop : List TokType) :
    nodesHaveMeta (parseNodesAux fuel ts stop).1 = false := by
  induction fuel generalizing ts stop with
  | zero =>
    cases ts with
    | nil => simp [parseNodesAux, nodesHaveMeta]
    | cons tok rest => simp [parseNodesAux, nodesHaveMeta]
  | succ f ih =>
    cases ts with
    | nil => simp [parseNodesAux, nodesHaveMeta]
    | cons tok rest =>
      obtain ⟨t, gs⟩ := tok
      by_cases hstop : t ∈ stop
      · simp [parseNodesAux, hstop, nodesHaveMeta_nil]
      · cases t with
        | TEXT => simp [parseNodesAux, hstop, nodesHaveMeta_consText, ih]
        | VARIABLE => simp [parseNodesAux, hstop, nodesHaveMeta_cons, nodeHasMeta, ih]
        | IF_START =>
          simp only [parseNodesAux, hstop, if_false, ite_false]
          split <;> simp [nodesHaveMeta_cons, nodeHasMeta, ih]
        | FOR_START => simp [parseNodesAux, hstop, nodesHaveMeta_cons, nodeHasMeta, ih]
        | INCLUDE => simp [parseNodesAux, hstop, nodesHaveMeta_cons, nodeHasMeta, ih]
        | METADATA => simp [parseNodesAux, hstop, ih]
        | COMMENT => simp [parseNodesAux, hstop, ih]
        | ELSE => simp [parseNodesAux, hstop, ih]
        | ENDIF => simp [parseNodesAux, hstop, ih]
        | ENDFOR => simp [parseNodesAux, hstop, ih]

/-- A token list made only of TEXT and VARIABLE tokens (no block structure
and no stop candidates). -/
def SimpleToks (ts : List Token) : Prop :=
  ∀ t ∈ ts, t.1 = TokType.TEXT ∨ t.1 = TokType.VARIABLE

theorem parseNodesAux_simple_rest (ts : List Token) :
    ∀ fuel stop, SimpleToks ts → ts.length ≤ fuel →
      TokType.TEXT ∉ stop → TokType.VARIABLE ∉ stop →
      (parseNodesAux fuel ts stop).2 = [] := by
  induction ts with
  | nil =>
    intro fuel stop _ _ _ _
    cases fuel <;> simp [parseNodesAux]
  | cons tok rest ih =>
    intro fuel stop hsimple hlen htext hvar
    obtain ⟨t, gs⟩ := tok
    obtain ⟨f, rfl⟩ : ∃ f, fuel = f + 1 := by
      cases fuel with
      | zero => simp at hlen
      | succ f => exact ⟨f, rfl⟩
    have hrest : SimpleToks rest := fun t2 h2 => hsimple t2 (by simp [h2])
    have hlen' : rest.length ≤ f := by
      simp [List.length_cons] at hlen
      omega
    rcases hsimple (t, gs) (by simp) with h | h <;> simp at h <;> subst h
    · have hstop : TokType.TEXT ∉ stop := htext
      simp [parseNodesAux, hstop, ih f stop hrest hlen' htext hvar]
    · have hstop : TokType.VARIABLE ∉ stop := hvar
      simp [parseNodesAux, hstop, ih f stop hrest hlen' htext hvar]

theorem dropLit_self (l r : List Char) : dropLit l (l ++ r) = some r := by
  induction l with
  | nil => simp [dropLit]
  | cons c cs ih => simp [dropLit, ih]

theorem dropWS_replicate (n : Nat) (l : List Char) :
    dropWS (List.replicate n ' ' ++ l) = dropWS l := by
  induction n with
  | zero => simp
  | succ k ih => simpa [dropWS, List.replicate_succ, List.dropWhile_cons] using ih

theorem dropWS_not_ws (c : Char) (l : List Char) (h : isWS c = false) :
    dropWS (c :: l) = c :: l := by
  simp [dropWS, List.dropWhile_cons, h]

theorem isWordChar_not_ws (c : Char) (h : isWordChar c = true) : isWS c = false := by
  cases hand : isWS c
  · rfl
  · exfalso
    simp only [isWS, Bool.or_eq_true, decide_eq_true_eq] at hand
    rcases hand with ((((h1 | h1) | h1) | h1) | h1) | h1 <;> subst h1 <;>
      exact absurd h (by decide)

theorem takeWhile_append_all (p : Char → Bool) (l r : List Char)
    (hl : ∀ c ∈ l, p c = true) (hr : ∀ c, r.head? = some c → p c = false) :
    List.takeWhile p (l ++ r) = l := by
  induction l with
  | nil =>
    cases r with
    | nil => simp
    | cons c rest => simp [List.takeWhile_cons, hr c rfl]
  | cons c cs ih =>
    have hc : p c = true := hl c (by simp)
    have hcs : ∀ c2 ∈ cs, p c2 = true := fun c2 h2 => hl c2 (by simp [h2])
    simp [List.takeWhile_cons, hc, ih hcs]

theorem mem_takeWhile_p (p : Char → Bool) : ∀ (l : List Char) (a : Char),
    a ∈ l.takeWhile p → p a = true := by
  intro l
  induction l with
  | nil => intro a h; simp at h
  | cons c cs ih =>
    intro a h
    rw [List.takeWhile_cons] at h
    by_cases hc : p c = true
    · simp [hc] at h
      rcases h with h | h
      · subst h; exact hc
      · exact ih a h
    · rw [if_neg hc] at h
      simp at h

theorem tokenizeAux_no_meta_tok (fuel : Nat) : ∀ cs meta,
    ∀ t ∈ (tokenizeAux fuel cs meta).2, t.1 ≠ TokType.METADATA := by
  induction fuel with
  | zero =>
    intro cs meta t ht
    cases cs <;> simp [tokenizeAux] at ht
  | succ f ih =>
    intro cs meta t ht
    cases cs with
    | nil => simp [tokenizeAux] at ht
    | cons c rest =>
      rcases hfp : firstPattern (c :: rest) with _ | ⟨tt, gg, rem⟩
      · by_cases hemp : (List.take (findNextMatch (c :: rest)) (c :: rest)).isEmpty
        · simp only [tokenizeAux, hfp, hemp, if_true] at ht
          exact ih _ _ t ht
        · simp only [tokenizeAux, hfp, hemp, if_false] at ht
          rcases List.mem_cons.mp ht with h | h
          · subst h; simp
          · exact ih _ _ t h
      · cases tt <;> simp only [tokenizeAux, hfp] at ht <;>
          first
          | exact ih _ _ t ht
          | (rcases List.mem_cons.mp ht with h | h
             · subst h; simp
             · exact ih _ _ t h)

/-! Theorems for the frozen claims. -/

/-- C2: for every source string and cursor position, the tokenizer tries
the fixed pattern list METADATA, COMMENT, IF_START, ELSE, ENDIF,
FOR_START, ENDFOR, INCLUDE, VARIABLE in exactly that priority order, each
anchored at the cursor, and the first pattern that matches at the cursor
wins regardless of whether a later pattern in the list would also match
there. -/
theorem claim_C2 :
    patterns.map Prod.fst =
      [TokType.METADATA, TokType.COMMENT, TokType.IF_START, TokType.ELSE,
       TokType.ENDIF, TokType.FOR_START, TokType.ENDFOR, TokType.INCLUDE,
       TokType.VARIABLE] ∧
    ∀ (pre : List (TokType × (List Char → Option (List String × List Char))))
      (p : TokType × (List Char → Option (List String × List Char)))
      (post : List (TokType × (List Char → Option (List String × List Char))))
      (cs : List Char) (r : List String × List Char),
      patterns = pre ++ p :: post →
      (∀ q ∈ pre, q.2 cs = none) →
      p.2 cs = some r →
      firstPattern cs = some (p.1, r.1, r.2) := by
  refine ⟨rfl, ?_⟩
  intro pre p post cs r hsplit hpre hp
  have h1 : firstPattern cs = firstPatternIn patterns cs := rfl
  rw [h1, hsplit]
  exact firstPatternIn_split pre p post cs r hpre hp

theorem claim_C2_witness :
    firstPattern ('{' :: '{' :: 'a' :: '}' :: '}' :: []) =
      some (TokType.VARIABLE, ["a"], []) :=
  claim_C2.2
    [(.METADATA, matchMetadata), (.COMMENT, matchComment), (.IF_START, matchIfStart),
     (.ELSE, matchElse), (.ENDIF, matchEndif), (.FOR_START, matchForStart),
     (.ENDFOR, matchEndfor), (.INCLUDE, matchInclude)]
    (.VARIABLE, matchVariable) [] ('{' :: '{' :: 'a' :: '}' :: '}' :: [])
    (["a"], []) rfl (by decide) (by decide)

/-- C3: every matched metadata directive is recorded into the metadata map
with its value trimmed and no token emitted; a later occurrence of the
same key overwrites the earlier one; the example template yields metadata
a collapsed to "2" with only the trailing text in the body; and no
metadata entry ever appears as a node in any parsed body. -/
theorem claim_C3 :
    parse "@a: 1\n@a: 2\nX" = ([("a", "2")], [Node.TextNode "X"]) ∧
    (∀ (m : Meta) (k v : String), assocFind (assocInsert m k v) k = some v) ∧
    (∀ fuel cs meta, ∀ t ∈ (tokenizeAux fuel cs meta).2, t.1 ≠ TokType.METADATA) ∧
    (∀ s : String, nodesHaveMeta (parse s).2 = false) := by
  refine ⟨rfl, fun m k v => assocFind_insert_self m k v, ?_, ?_⟩
  · intro fuel cs meta t ht
    exact tokenizeAux_no_meta_tok fuel cs meta t ht
  · intro s
    exact parseNodesAux_no_meta _ _ _

/-- C4: the parser is total and lenient — an IF_START (respectively
FOR_START) whose block runs to end-of-stream without a matching
endif/else (endfor) still emits the IfNode (ForNode) with the accumulated
block content, and stray ELSE, ENDIF and ENDFOR tokens at the top level
are silently skipped. -/
theorem claim_C4 :
    (∀ gs ts, SimpleToks ts →
       parseTokens ((TokType.IF_START, gs) :: ts) =
         [Node.IfNode (gs.getD 0 "")
           (parseNodesAux ts.length ts [TokType.ELSE, TokType.ENDIF]).1 none]) ∧
    (∀ gs ts, SimpleToks ts →
       parseTokens ((TokType.FOR_START, gs) :: ts) =
         [Node.ForNode (gs.getD 0 "") (gs.getD 1 "")
           (parseNodesAux ts.length ts [TokType.ENDFOR]).1]) ∧
    (∀ gs ts, parseTokens ((TokType.ELSE, gs) :: ts) = parseTokens ts) ∧
    (∀ gs ts, parseTokens ((TokType.ENDIF, gs) :: ts) = parseTokens ts) ∧
    (∀ gs ts, parseTokens ((TokType.ENDFOR, gs) :: ts) = parseTokens ts) := by
  refine ⟨?_, ?_, fun gs ts => rfl, fun gs ts => rfl, fun gs ts => rfl⟩
  · intro gs ts hs
    have hrest : (parseNodesAux ts.length ts [TokType.ELSE, TokType.ENDIF]).2 = [] :=
      parseNodesAux_simple_rest ts ts.length _ hs le_rfl (by decide) (by decide)
    simp [parseTokens, parseNodesAux, hrest, headTokIs, dropLeading]
  · intro gs ts hs
    have hrest : (parseNodesAux ts.length ts [TokType.ENDFOR]).2 = [] :=
      parseNodesAux_simple_rest ts ts.length _ hs le_rfl (by decide) (by decide)
    simp [parseTokens, parseNodesAux, hrest, headTokIs, dropLeading]

theorem claim_C4_witness :
    parseTokens [(TokType.IF_START, ["condition"]), (TokType.TEXT, ["Text"])] =
      [Node.IfNode "condition"
        (parseNodesAux 1 [(TokType.TEXT, ["Text"])] [TokType.ELSE, TokType.ENDIF]).1
        none] :=
  claim_C4.1 ["condition"] [(TokType.TEXT, ["Text"])]
    (by intro t ht; simp only [List.mem_singleton] at ht; subst ht; left; rfl)

/-- C9: the metadata pattern is anchored only to the scan cursor, not to
line starts — in "foo @k: v\nbar" the text collection stops at offset 4
where the metadata pattern matches mid-line, the directive is recorded in
the metadata map, and it is cut out of the surrounding text, whose two
runs coalesce around it in the parsed body. -/
theorem claim_C9 :
    findNextMatch (String.data "foo @k: v\nbar") = 4 ∧
    tokenize (String.data "foo @k: v\nbar") =
      ([("k", "v")], [(TokType.TEXT, ["foo "]), (TokType.TEXT, ["bar"])]) ∧
    parse "foo @k: v\nbar" = ([("k", "v")], [Node.TextNode "foo bar"]) :=
  ⟨rfl, rfl, rfl⟩

/-- C10: a brace pair is tokenized as a variable only when its content is
exactly a nonempty dotted identifier with no whitespace inside the braces
— "{{ name }}" produces no VariableNode and survives as literal text,
every successful VARIABLE match captures only word or dot characters, and
the brace-percent directives accept arbitrary runs of internal whitespace
around their keywords. -/
theorem claim_C10 :
    parse "{{ name }}" = ([], [Node.TextNode "{{ name }}"]) ∧
    (∀ cs nm rest, matchVariable cs = some ([nm], rest) →
       nm.data ≠ [] ∧ ∀ c ∈ nm.data, isWordDotChar c = true) ∧
    (∀ (n m : Nat) (cond : String), cond.data ≠ [] →
       (∀ c ∈ cond.data, isWordChar c = true) →
       matchIfStart ('{' :: '%' :: (List.replicate n ' ' ++
           ('i' :: 'f' :: ' ' :: (cond.data ++ (List.replicate m ' ' ++ ['%', '}']))))) =
         some ([cond], [])) := by
  refine ⟨rfl, ?_, ?_⟩
  · intro cs nm rest h
    simp only [matchVariable] at h
    split at h
    · rename_i r2
      by_cases hemp : (List.takeWhile isWordDotChar r2).isEmpty
      · rw [if_pos hemp] at h
        exact absurd h (by simp)
      · rw [if_neg hemp] at h
        split at h
        all_goals
          first
          | (simp only [Option.some.injEq, Prod.mk.injEq, List.cons.injEq] at h
             obtain ⟨⟨hnm, -⟩, -⟩ := h
             subst hnm
             refine ⟨?_, fun c hc => mem_takeWhile_p isWordDotChar r2 c hc⟩
             intro hdata
             rw [show (String.mk (List.takeWhile isWordDotChar r2)).data =
                 List.takeWhile isWordDotChar r2 from rfl] at hdata
             rw [hdata] at hemp
             simp at hemp)
          | exact absurd h (by simp)
    · exact absurd h (by simp)
  · intro n m cond h1 h2
    obtain ⟨c0, cd, hcond⟩ : ∃ c0 cd, cond.data = c0 :: cd := by
      cases hc : cond.data with
      | nil => exact absurd hc h1
      | cons c0 cd => exact ⟨c0, cd, rfl⟩
    have hc0 : isWS c0 = false :=
      isWordChar_not_ws c0 (h2 c0 (by rw [hcond]; simp))
    have e1 : dropWS (List.replicate n ' ' ++
        ('i' :: 'f' :: ' ' :: (cond.data ++ (List.replicate m ' ' ++ ['%', '}'])))) =
        'i' :: 'f' :: ' ' :: (cond.data ++ (List.replicate m ' ' ++ ['%', '}'])) := by
      rw [dropWS_replicate]
      exact dropWS_not_ws _ _ (by decide)
    have e2 : dropLit ['i', 'f']
        ('i' :: 'f' :: ' ' :: (cond.data ++ (List.replicate m ' ' ++ ['%', '}']))) =
        some (' ' :: (cond.data ++ (List.replicate m ' ' ++ ['%', '}']))) := by
      have h := dropLit_self ['i', 'f']
        (' ' :: (cond.data ++ (List.replicate m ' ' ++ ['%', '}'])))
      simpa using h
    have e3 : dropWS (' ' :: (cond.data ++ (List.replicate m ' ' ++ ['%', '}']))) =
        cond.data ++ (List.replicate m ' ' ++ ['%', '}']) := by
      rw [hcond]
      have hsp : isWS ' ' = true := by decide
      simp [dropWS, List.dropWhile_cons, hsp, hc0]
    have e4 : List.takeWhile isWordChar
        (cond.data ++ (List.replicate m ' ' ++ ['%', '}'])) = cond.data := by
      refine takeWhile_append_all isWordChar _ _ h2 ?_
      intro c hch
      cases m with
      | zero =>
        simp at hch
        subst hch
        decide
      | succ k =>
        simp [List.replicate_succ] at hch
        subst hch
        decide
    have e6 : dropWS (List.replicate m ' ' ++ ['%', '}']) = ['%', '}'] := by
      rw [dropWS_replicate]
      exact dropWS_not_ws _ _ (by decide)
    have e7 : cond.data.isEmpty = false := by
      rw [hcond]
      rfl
    have e8 : String.mk cond.data = cond := rfl
    simp only [matchIfStart, e1, e2, e3, e4, e6, e7, headIsWS, List.drop_left,
      consumeNL, e8]
    simp [isWS]

theorem claim_C10_witness :
    matchIfStart ('{' :: '%' :: (List.replicate 1 ' ' ++
        ('i' :: 'f' :: ' ' :: (String.data "x" ++ (List.replicate 1 ' ' ++ ['%', '}']))))) =
      some (["x"], []) :=
  claim_C10.2.2 1 1 "x" (by decide) (by decide)

theorem loadTemplate_miss (fs : FS) (c : Composer) (name : String)
    (h1 : assocFind c.cache name = none) (h2 : fs name = none) :
    loadTemplate fs c name = .error (.notFound name) := by
  simp [loadTemplate, h1, h2]

theorem renderTemplate_miss (fuel : Nat) (fs : FS) (c : Composer) (name : String)
    (ctx : Ctx) (h1 : assocFind c.cache name = none) (h2 : fs name = none) :
    renderTemplate fuel fs c name ctx = .error (.notFound name) := by
  simp [renderTemplate, loadTemplate_miss fs c name h1 h2]

theorem loadTemplate_keeps_miss (fs : FS) (c : Composer) (s name : String)
    (t : Meta × List Node) (c2 : Composer) (r : List String)
    (h : loadTemplate fs c s = .ok (t, c2, r)) (hne : s ≠ name)
    (hmiss : assocFind c.cache name = none) : assocFind c2.cache name = none := by
  rcases hc : assocFind c.cache s with _ | t0
  · rcases hf : fs s with _ | content
    · simp [loadTemplate, hc, hf] at h
    · simp only [loadTemplate, hc, hf, Except.ok.injEq, Prod.mk.injEq] at h
      obtain ⟨-, hcc, -⟩ := h
      rw [← hcc]
      show assocFind (assocInsert c.cache s (parse content)) name = none
      rw [assocFind_insert_ne c.cache s name (parse content) hne]
      exact hmiss
  · simp only [loadTemplate, hc, Except.ok.injEq, Prod.mk.injEq] at h
    obtain ⟨-, hcc, -⟩ := h
    rw [← hcc]
    exact hmiss

theorem renderTemplate_keeps_miss (fuel : Nat) (fs : FS) (c : Composer)
    (s name : String) (ctx : Ctx) (sOut : String) (c2 : Composer)
    (h : renderTemplate fuel fs c s ctx = .ok (sOut, c2)) (hne : s ≠ name)
    (hmiss : assocFind c.cache name = none) : assocFind c2.cache name = none := by
  rcases hl : loadTemplate fs c s with e | ⟨t, c2', rr⟩
  · simp [renderTemplate, hl] at h
  · rcases hr : renderNodes fuel fs ctx t.2 with e | sOut2
    · simp [renderTemplate, hl, hr] at h
    · simp only [renderTemplate, hl, hr, Except.ok.injEq, Prod.mk.injEq] at h
      obtain ⟨-, hcc⟩ := h
      rw [← hcc]
      exact loadTemplate_keeps_miss fs c s name t c2' rr hl hne hmiss

theorem composeList_missing (fuel : Nat) (fs : FS) (ctx : Ctx) (name : String)
    (hfs : fs name = none) :
    ∀ (snippets : List String) (c : Composer), name ∈ snippets →
      assocFind c.cache name = none →
      ∀ rs c2, composeList fuel fs c snippets ctx ≠ .ok (rs, c2) := by
  intro snippets
  induction snippets with
  | nil =>
    intro c hmem
    simp at hmem
  | cons s rest ih =>
    intro c hmem hcache rs c2 hok
    rcases hr : renderTemplate fuel fs c s ctx with e | ⟨sOut, cNext⟩
    · simp [composeList, hr] at hok
    · by_cases hsn : s = name
      · subst hsn
        rw [renderTemplate_miss fuel fs c s ctx hcache hfs] at hr
        simp at hr
      · have hmem' : name ∈ rest := by
          rcases List.mem_cons.mp hmem with h | h
          · exact absurd h.symm hsn
          · exact h
        have hcache' : assocFind cNext.cache name = none :=
          renderTemplate_keeps_miss fuel fs c s name ctx sOut cNext hr hsn hcache
        rcases hcl : composeList fuel fs cNext rest ctx with e2 | ⟨rs2, c3⟩
        · simp [composeList, hr, hcl] at hok
        · exact absurd hcl (ih cNext hmem' hcache' rs2 c3)

/-- C1: rendering a VariableNode whose dotted path fails to resolve
(a missing segment, or a non-mapping value while segments remain) yields
the empty string with no error; "Hello, {{name}}!" under the empty context
renders to "Hello, !" and {{user.missing}} under a context binding user to
a mapping with keys name and id renders to the empty string. -/
theorem claim_C1 :
    (∀ fuel fs ctx nm, resolvePath ctx nm = none →
       renderNode fuel fs ctx (Node.VariableNode nm) = .ok "") ∧
    (∀ fuel fs, renderNodes fuel fs [] (parse "Hello, {{name}}!").2 = .ok "Hello, !") ∧
    (∀ fuel fs, renderNode fuel fs
        [("user", Value.vDict [("name", Value.vStr "Alice"), ("id", Value.vInt 42)])]
        (Node.VariableNode "user.missing") = .ok "") := by
  refine ⟨?_, ?_, ?_⟩
  · intro fuel fs ctx nm h
    simp [renderNode, h]
  · intro fuel fs
    have hb : (parse "Hello, {{name}}!").2 =
        [Node.TextNode "Hello, ", Node.VariableNode "name", Node.TextNode "!"] := rfl
    rw [hb]
    have h1 : resolvePath [] "name" = none := rfl
    simp [renderNodes, renderNode, h1]
  · intro fuel fs
    have h1 : resolvePath
        [("user", Value.vDict [("name", Value.vStr "Alice"), ("id", Value.vInt 42)])]
        "user.missing" = none := rfl
    simp [renderNode, h1]

theorem claim_C1_witness :
    renderNode 0 (fun _ => none) [] (Node.VariableNode "name") = .ok "" :=
  claim_C1.1 0 (fun _ => none) [] "name" rfl

/-- C5: a ForNode whose iterable is absent or not a sequence renders zero
iterations without error; otherwise the block is rendered once per element
in sequence order with the iterator bound to the element at the head of a
scoped context view (shadowing an outer binding of the same name), the
iteration outputs are concatenated, and sibling nodes after the loop are
rendered with the untouched outer context. -/
theorem claim_C5 :
    (∀ fuel fs ctx it itb blk, lookupCtx ctx itb = none →
       renderNode fuel fs ctx (Node.ForNode it itb blk) = .ok "") ∧
    (∀ fuel fs ctx it itb blk v, lookupCtx ctx itb = some v →
       (∀ xs, v ≠ Value.vList xs) →
       renderNode fuel fs ctx (Node.ForNode it itb blk) = .ok "") ∧
    (∀ fuel fs ctx it itb blk xs, lookupCtx ctx itb = some (Value.vList xs) →
       renderNode fuel fs ctx (Node.ForNode it itb blk) =
         renderFor fuel fs ctx it blk xs) ∧
    (∀ fuel fs ctx it blk, renderFor fuel fs ctx it blk [] = .ok "") ∧
    (∀ fuel fs ctx it blk x xs,
       renderFor fuel fs ctx it blk (x :: xs) =
         match renderNodes fuel fs ((it, x) :: ctx) blk with
         | .error e => .error e
         | .ok s =>
           match renderFor fuel fs ctx it blk xs with
           | .error e => .error e
           | .ok r => .ok (s ++ r)) ∧
    (∀ it x (ctx : Ctx), lookupCtx ((it, x) :: ctx) it = some x) ∧
    (∀ it x (ctx : Ctx) nm, nm ≠ it → lookupCtx ((it, x) :: ctx) nm = lookupCtx ctx nm) ∧
    (∀ fuel fs ctx n ns,
       renderNodes fuel fs ctx (n :: ns) =
         match renderNode fuel fs ctx n with
         | .error e => .error e
         | .ok s =>
           match renderNodes fuel fs ctx ns with
           | .error e => .error e
           | .ok r => .ok (s ++ r)) := by
  refine ⟨?_, ?_, ?_, ?_, ?_, ?_, ?_, ?_⟩
  · intro fuel fs ctx it itb blk h
    simp [renderNode, h]
  · intro fuel fs ctx it itb blk v h hv
    rcases v with s | n | b | _ | xs | es
    · simp [renderNode, h]
    · simp [renderNode, h]
    · simp [renderNode, h]
    · simp [renderNode, h]
    · exact absurd rfl (hv xs)
    · simp [renderNode, h]
  · intro fuel fs ctx it itb blk xs h
    simp [renderNode, h]
  · intro fuel fs ctx it blk
    simp [renderFor]
  · intro fuel fs ctx it blk x xs
    conv_lhs => rw [renderFor]
  · intro it x ctx
    simp [lookupCtx]
  · intro it x ctx nm h
    simp [lookupCtx, Ne.symm h]
  · intro fuel fs ctx n ns
    conv_lhs => rw [renderNodes]

theorem claim_C5_witness :
    renderNode 0 (fun _ => none) [] (Node.ForNode "i" "xs" []) = .ok "" :=
  claim_C5.1 0 (fun _ => none) [] "i" "xs" [] rfl

/-- C6: a second loadTemplate call for the same name on one Composer — even
against a changed or vanished template store — returns the cached pair and
unchanged state and performs no disk read; a freshly constructed Composer
has an empty cache, so its cache cannot hold a template loaded through any
other instance. -/
theorem claim_C6 :
    (∀ fs fs2 c name t c2 r, loadTemplate fs c name = .ok (t, c2, r) →
       loadTemplate fs2 c2 name = .ok (t, c2, [])) ∧
    Composer.new.cache = [] ∧
    (∀ name, assocFind Composer.new.cache name = none) := by
  refine ⟨?_, rfl, fun name => rfl⟩
  intro fs fs2 c name t c2 r h
  rcases hc : assocFind c.cache name with _ | t0
  · rcases hf : fs name with _ | content
    · simp [loadTemplate, hc, hf] at h
    · simp only [loadTemplate, hc, hf, Except.ok.injEq, Prod.mk.injEq] at h
      obtain ⟨ht, hcc, -⟩ := h
      have h2 : assocFind c2.cache name = some t := by
        rw [← hcc, ← ht]
        exact assocFind_insert_self c.cache name (parse content)
      simp [loadTemplate, h2]
  · simp only [loadTemplate, hc, Except.ok.injEq, Prod.mk.injEq] at h
    obtain ⟨ht, hcc, -⟩ := h
    have h2 : assocFind c2.cache name = some t := by
      rw [← hcc, ← ht]
      exact hc
    simp [loadTemplate, h2]

def fsW : FS := fun n => if n = "a" then some "A" else if n = "b" then some "B" else none

theorem claim_C6_witness :
    loadTemplate (fun _ => none) ⟨[("a", parse "A")]⟩ "a" =
      .ok (parse "A", ⟨[("a", parse "A")]⟩, []) :=
  claim_C6.1 fsW (fun _ => none) Composer.new "a" (parse "A") ⟨[("a", parse "A")]⟩
    ["a"] (by simp [loadTemplate, fsW, assocFind, Composer.new, assocInsert])

/-- C7: composePrompt renders each snippet name in order via
renderTemplate and joins the results with the separator (whose default is
two newlines), so composing two names equals the first render, the
separator, then the second render; the empty snippet list yields the empty
string. -/
theorem claim_C7 :
    defaultSeparator = "\n\n" ∧
    (∀ fuel fs c ctx sep, composePrompt fuel fs c [] ctx sep = .ok ("", c)) ∧
    (∀ fuel fs c ctx sep a b ra c1 rb c2,
       renderTemplate fuel fs c a ctx = .ok (ra, c1) →
       renderTemplate fuel fs c1 b ctx = .ok (rb, c2) →
       composePrompt fuel fs c [a, b] ctx sep = .ok (ra ++ sep ++ rb, c2)) ∧
    (∀ fuel fs c ctx sep n ns,
       composePrompt fuel fs c (n :: ns) ctx sep =
         match renderTemplate fuel fs c n ctx with
         | .error e => .error e
         | .ok (s, c2) =>
           match composeList fuel fs c2 ns ctx with
           | .error e => .error e
           | .ok (rs, c3) => .ok (joinSep sep (s :: rs), c3)) := by
  refine ⟨rfl, fun fuel fs c ctx sep => rfl, ?_, ?_⟩
  · intro fuel fs c ctx sep a b ra c1 rb c2 h1 h2
    simp [composePrompt, composeList, h1, h2, joinSep]
  · intro fuel fs c ctx sep n ns
    rcases hr : renderTemplate fuel fs c n ctx with e | ⟨s, c2⟩
    · simp [composePrompt, composeList, hr]
    · rcases hcl : composeList fuel fs c2 ns ctx with e2 | ⟨rs, c3⟩
      · simp [composePrompt, composeList, hr, hcl]
      · simp [composePrompt, composeList, hr, hcl]

theorem claim_C7_witness :
    composePrompt 5 fsW Composer.new ["a", "b"] [] " | " =
      .ok ("A" ++ " | " ++ "B", ⟨[("a", parse "A"), ("b", parse "B")]⟩) :=
  claim_C7.2.2.1 5 fsW Composer.new [] " | " "a" "b" "A" ⟨[("a", parse "A")]⟩ "B"
    ⟨[("a", parse "A"), ("b", parse "B")]⟩
    (by
      have hb : parse "A" = ([], [Node.TextNode "A"]) := rfl
      simp [renderTemplate, loadTemplate, fsW, assocFind, Composer.new, assocInsert,
        hb, renderNodes, renderNode])
    (by
      have hb : parse "B" = ([], [Node.TextNode "B"]) := rfl
      simp [renderTemplate, loadTemplate, fsW, assocFind, assocInsert, hb,
        renderNodes, renderNode])

/-- C8: a missing template file makes loadTemplate and renderTemplate fail
with the not-found condition; in composePrompt a missing snippet aborts
the whole composition — no output value is ever returned, so snippets
already rendered are discarded — and when the missing snippet is reached
the failure is exactly the not-found condition. -/
theorem claim_C8 :
    (∀ fs c name, assocFind c.cache name = none → fs name = none →
       loadTemplate fs c name = .error (.notFound name)) ∧
    (∀ fuel fs c name ctx, assocFind c.cache name = none → fs name = none →
       renderTemplate fuel fs c name ctx = .error (.notFound name)) ∧
    (∀ fuel fs c snippets ctx sep name, name ∈ snippets →
       assocFind c.cache name = none → fs name = none →
       ∀ out c2, composePrompt fuel fs c snippets ctx sep ≠ .ok (out, c2)) ∧
    (∀ fuel fs c name rest ctx sep, assocFind c.cache name = none → fs name = none →
       composePrompt fuel fs c (name :: rest) ctx sep = .error (.notFound name)) := by
  refine ⟨loadTemplate_miss, renderTemplate_miss, ?_, ?_⟩
  · intro fuel fs c snippets ctx sep name hmem hcache hfs out c2 hok
    rcases hcl : composeList fuel fs c snippets ctx with e | ⟨rs, c3⟩
    · simp [composePrompt, hcl] at hok
    · exact absurd hcl (composeList_missing fuel fs ctx name hfs snippets c hmem hcache rs c3)
  · intro fuel fs c name rest ctx sep hcache hfs
    simp [composePrompt, composeList, renderTemplate_miss fuel fs c name ctx hcache hfs]

theorem claim_C8_witness :
    composePrompt 5 (fun _ => none) Composer.new ["missing.marg"] [] defaultSeparator =
      .error (.notFound "missing.marg") :=
  claim_C8.2.2.2 5 (fun _ => none) Composer.new "missing.marg" [] [] defaultSeparator
    rfl rfl

end Margarita
